import Mathlib

/-!
Verification of the sparse pLSA EM engine in `enstop/plsa.py`.

The numeric kernels (`plsa_e_step`, `plsa_m_step`, `plsa_refit_m_step`), the
fit and refit loops, the initializer dispatch (`plsa_init`) and the estimator
wrapper's `transform` call are embedded shallowly.  Matrices are total
functions on `Fin`-indexed coordinates; the scalar arithmetic of the kernels
(addition, multiplication, division, order comparisons on IEEE doubles) is
modelled by exact rational arithmetic on `ℚ`.  The real logarithm used by
`log_likelihood` is transcendental, so the loop definitions are parametrised
by the scalar log function while keeping the control flow of the source; the
square roots of the NNDSVD initializer are embedded over `ℝ`.
-/

namespace Enstop

/-- E step of pLSA (`plsa_e_step` in `plsa.py`).  For the nonzero entry `i`
with document `rows i` and word `cols i`, each topic weight
`v = p_w_given_z[z, w] * p_z_given_d[d, z]` is stored when
`v > probability_threshold` (otherwise `0` is stored), the stored weights are
accumulated into `norm`, and when `norm > 0` every stored weight of the row is
divided by it.  The source writes into the out-parameter `p_z_given_wd`; the
pure embedding returns that matrix.  The source's `X_vals` argument is used
only through its length, which here is the index type `Fin nnz`. -/
def plsa_e_step {n m k nnz : ℕ} (rows : Fin nnz → Fin n) (cols : Fin nnz → Fin m)
    (p_w_given_z : Fin k → Fin m → ℚ) (p_z_given_d : Fin n → Fin k → ℚ)
    (probability_threshold : ℚ) : Fin nnz → Fin k → ℚ :=
  fun i z =>
    let raw : Fin k → ℚ := fun z' =>
      let v := p_w_given_z z' (cols i) * p_z_given_d (rows i) z'
      if probability_threshold < v then v else 0
    let s := ∑ z', raw z'
    if 0 < s then raw z / s else raw z

/-- M step of pLSA (`plsa_m_step` in `plsa.py`).  The source first overwrites
`p_w_given_z`, `p_z_given_d`, `norm_pwz` and `norm_pdz` with zeros, then for
every nonzero entry `i` and topic `z` accumulates `s = X_vals[i] *
p_z_given_wd[i, z]` into `p_w_given_z[z, cols i]`, `p_z_given_d[rows i, z]`,
`norm_pwz[z]` and `norm_pdz[rows i]`, and finally divides each accumulated
matrix entry by its row accumulator whenever that accumulator is positive
(leaving the accumulated value untouched otherwise).  Because of the initial
zeroing the result depends only on the sparse data and the posteriors, so the
pure embedding takes just those and returns the pair
`(p_w_given_z, p_z_given_d)` exactly as the source does. -/
def plsa_m_step {n m k nnz : ℕ} (rows : Fin nnz → Fin n) (cols : Fin nnz → Fin m)
    (vals : Fin nnz → ℚ) (p_z_given_wd : Fin nnz → Fin k → ℚ) :
    (Fin k → Fin m → ℚ) × (Fin n → Fin k → ℚ) :=
  let norm_pwz : Fin k → ℚ := fun z => ∑ i, vals i * p_z_given_wd i z
  let norm_pdz : Fin n → ℚ := fun d =>
    ∑ i ∈ Finset.univ.filter (fun i => rows i = d), ∑ z, vals i * p_z_given_wd i z
  let p_w_given_z : Fin k → Fin m → ℚ := fun z w =>
    let acc := ∑ i ∈ Finset.univ.filter (fun i => cols i = w), vals i * p_z_given_wd i z
    if 0 < norm_pwz z then acc / norm_pwz z else acc
  let p_z_given_d : Fin n → Fin k → ℚ := fun d z =>
    let acc := ∑ i ∈ Finset.univ.filter (fun i => rows i = d), vals i * p_z_given_wd i z
    if 0 < norm_pdz d then acc / norm_pdz d else acc
  (p_w_given_z, p_z_given_d)

/-- Modelled from the spec (§8, "Zero-threshold equivalence"): the comparison
definition for refinement claim C6, an unthresholded expectation step that
"always stores P(w|z)*P(z|d) and normalizes by the row sum".  This definition
follows the spec's words, not the source. -/
def plsa_e_step_unthresholded {n m k nnz : ℕ} (rows : Fin nnz → Fin n)
    (cols : Fin nnz → Fin m) (p_w_given_z : Fin k → Fin m → ℚ)
    (p_z_given_d : Fin n → Fin k → ℚ) : Fin nnz → Fin k → ℚ :=
  fun i z =>
    (p_w_given_z z (cols i) * p_z_given_d (rows i) z) /
      ∑ z', p_w_given_z z' (cols i) * p_z_given_d (rows i) z'

section Kernels

variable {n m k nnz : ℕ} (rows : Fin nnz → Fin n) (cols : Fin nnz → Fin m)

/-- Claim C2: for every nonzero entry, the posterior row written by the E step
is either a probability distribution over the `k` topics (non-negative entries
summing to `1`) or identically zero; and whenever every product
`P(w|z)*P(z|d)` of the entry is at or below the threshold, the row is all
zeros (the normalizing division is skipped, so no division by zero occurs). -/
theorem claimC2_e_step_rows_distribution_or_zero
    (p_w_given_z : Fin k → Fin m → ℚ) (p_z_given_d : Fin n → Fin k → ℚ)
    (τ : ℚ) (hw : ∀ z w, 0 ≤ p_w_given_z z w) (hd : ∀ d z, 0 ≤ p_z_given_d d z) :
    ∀ i : Fin nnz,
      ((∀ z, 0 ≤ plsa_e_step rows cols p_w_given_z p_z_given_d τ i z) ∧
        ((∑ z, plsa_e_step rows cols p_w_given_z p_z_given_d τ i z) = 1 ∨
          ∀ z, plsa_e_step rows cols p_w_given_z p_z_given_d τ i z = 0)) ∧
      ((∀ z, p_w_given_z z (cols i) * p_z_given_d (rows i) z ≤ τ) →
        ∀ z, plsa_e_step rows cols p_w_given_z p_z_given_d τ i z = 0) := by
  intro i
  have hraw : ∀ z' : Fin k,
      (0:ℚ) ≤ (if τ < p_w_given_z z' (cols i) * p_z_given_d (rows i) z' then
        p_w_given_z z' (cols i) * p_z_given_d (rows i) z' else 0) := by
    intro z'
    split
    · exact mul_nonneg (hw _ _) (hd _ _)
    · exact le_refl 0
  set raw : Fin k → ℚ := fun z' =>
    if τ < p_w_given_z z' (cols i) * p_z_given_d (rows i) z' then
      p_w_given_z z' (cols i) * p_z_given_d (rows i) z' else 0 with hraw_def
  have hstep : ∀ z, plsa_e_step rows cols p_w_given_z p_z_given_d τ i z =
      if 0 < ∑ z', raw z' then raw z / ∑ z', raw z' else raw z := by
    intro z; rfl
  have hs_nonneg : (0:ℚ) ≤ ∑ z', raw z' := Finset.sum_nonneg fun z' _ => hraw z'
  constructor
  · constructor
    · intro z
      rw [hstep]
      split
      · exact div_nonneg (hraw z) hs_nonneg
      · exact hraw z
    · by_cases hpos : 0 < ∑ z', raw z'
      · left
        have : (∑ z, plsa_e_step rows cols p_w_given_z p_z_given_d τ i z) =
            ∑ z, raw z / ∑ z', raw z' := by
          refine Finset.sum_congr rfl fun z _ => ?_
          rw [hstep, if_pos hpos]
        rw [this, ← Finset.sum_div, div_self (ne_of_gt hpos)]
      · right
        intro z
        have hzero : (∑ z', raw z') = 0 := le_antisymm (not_lt.mp hpos) hs_nonneg
        have hallzero : ∀ z' ∈ Finset.univ, raw z' = 0 :=
          (Finset.sum_eq_zero_iff_of_nonneg fun z' _ => hraw z').mp hzero
        rw [hstep, if_neg hpos]
        exact hallzero z (Finset.mem_univ z)
  · intro hbelow z
    have hraw0 : ∀ z', raw z' = 0 := by
      intro z'
      rw [hraw_def]
      exact if_neg (not_lt.mpr (hbelow z'))
    rw [hstep]
    have hz : (∑ z', raw z') = 0 := Finset.sum_eq_zero fun z' _ => hraw0 z'
    rw [hz, if_neg (lt_irrefl 0), hraw0 z]

/-- Witness for C2: a `1×1` model with value `1/2` in both matrices and
threshold `0` satisfies the hypotheses, so the conclusion holds at the
single nonzero entry. -/
theorem claimC2_e_step_rows_distribution_or_zero_witness :
    ((∀ z, 0 ≤ @plsa_e_step 1 1 1 1 (fun _ => 0) (fun _ => 0)
        (fun _ _ => (1:ℚ)/2) (fun _ _ => (1:ℚ)/2) 0 0 z) ∧
      ((∑ z, @plsa_e_step 1 1 1 1 (fun _ => 0) (fun _ => 0)
          (fun _ _ => (1:ℚ)/2) (fun _ _ => (1:ℚ)/2) 0 0 z) = 1 ∨
        ∀ z, @plsa_e_step 1 1 1 1 (fun _ => 0) (fun _ => 0)
          (fun _ _ => (1:ℚ)/2) (fun _ _ => (1:ℚ)/2) 0 0 z = 0)) ∧
    ((∀ z : Fin 1, (fun _ _ => (1:ℚ)/2 : Fin 1 → Fin 1 → ℚ) z 0 *
        (fun _ _ => (1:ℚ)/2 : Fin 1 → Fin 1 → ℚ) 0 z ≤ 0) →
      ∀ z, @plsa_e_step 1 1 1 1 (fun _ => 0) (fun _ => 0)
        (fun _ _ => (1:ℚ)/2) (fun _ _ => (1:ℚ)/2) 0 0 z = 0) :=
  claimC2_e_step_rows_distribution_or_zero (fun _ => 0) (fun _ => 0)
    (fun _ _ => (1:ℚ)/2) (fun _ _ => (1:ℚ)/2) 0
    (fun _ _ => by norm_num) (fun _ _ => by norm_num) 0

/-- Pointwise description of the E step: the stored (thresholded) topic
weights of the entry's row, divided by their sum when that sum is positive. -/
theorem plsa_e_step_apply (p_w_given_z : Fin k → Fin m → ℚ)
    (p_z_given_d : Fin n → Fin k → ℚ) (τ : ℚ) (i : Fin nnz) (z : Fin k) :
    plsa_e_step rows cols p_w_given_z p_z_given_d τ i z =
      if 0 < ∑ z', (if τ < p_w_given_z z' (cols i) * p_z_given_d (rows i) z' then
          p_w_given_z z' (cols i) * p_z_given_d (rows i) z' else 0) then
        (if τ < p_w_given_z z (cols i) * p_z_given_d (rows i) z then
          p_w_given_z z (cols i) * p_z_given_d (rows i) z else 0) /
        ∑ z', (if τ < p_w_given_z z' (cols i) * p_z_given_d (rows i) z' then
          p_w_given_z z' (cols i) * p_z_given_d (rows i) z' else 0)
      else
        (if τ < p_w_given_z z (cols i) * p_z_given_d (rows i) z then
          p_w_given_z z (cols i) * p_z_given_d (rows i) z else 0) := rfl

/-- Pointwise description of the unthresholded E step. -/
theorem plsa_e_step_unthresholded_apply (p_w_given_z : Fin k → Fin m → ℚ)
    (p_z_given_d : Fin n → Fin k → ℚ) (i : Fin nnz) (z : Fin k) :
    plsa_e_step_unthresholded rows cols p_w_given_z p_z_given_d i z =
      (p_w_given_z z (cols i) * p_z_given_d (rows i) z) /
        ∑ z', p_w_given_z z' (cols i) * p_z_given_d (rows i) z' := rfl

/-- Applying the M step to an all-zero posterior matrix yields all-zero
matrices: the source zeroes the accumulators, accumulates nothing, and the
guarded divisions are skipped. -/
theorem plsa_m_step_zero_posteriors (vals : Fin nnz → ℚ) :
    plsa_m_step rows cols vals (fun (_ : Fin nnz) (_ : Fin k) => (0:ℚ)) =
      ((fun (_ : Fin k) (_ : Fin m) => (0:ℚ)),
        (fun (_ : Fin n) (_ : Fin k) => (0:ℚ))) := by
  rw [Prod.ext_iff]
  constructor
  · funext z w
    simp [plsa_m_step]
  · funext d z
    simp [plsa_m_step]

/-- Claim C1 (corrected): if `e_step_threshold` exceeds every product
`P(w|z)*P(z|d)` attainable at the current model state, the E step writes an
all-zero posterior matrix, and the M step run on those all-zero posteriors
sets both the topic-word matrix and the doc-topic matrix to all zeros (the
accumulators stay zero and every guarded division is skipped), producing no
NaN and raising no error.  The original claim said the M step leaves the
matrices unchanged, but the source overwrites them with zeros first. -/
theorem claimC1_amended_large_threshold
    (vals : Fin nnz → ℚ) (p_w_given_z : Fin k → Fin m → ℚ)
    (p_z_given_d : Fin n → Fin k → ℚ) (τ : ℚ)
    (h : ∀ (i : Fin nnz) (z : Fin k),
      p_w_given_z z (cols i) * p_z_given_d (rows i) z < τ) :
    plsa_e_step rows cols p_w_given_z p_z_given_d τ = (fun _ _ => 0) ∧
    plsa_m_step rows cols vals (plsa_e_step rows cols p_w_given_z p_z_given_d τ) =
      ((fun _ _ => 0), (fun _ _ => 0)) := by
  have he : plsa_e_step rows cols p_w_given_z p_z_given_d τ = (fun _ _ => 0) := by
    funext i z
    have hraw : ∀ z' : Fin k,
        (if τ < p_w_given_z z' (cols i) * p_z_given_d (rows i) z' then
          p_w_given_z z' (cols i) * p_z_given_d (rows i) z' else 0) = 0 :=
      fun z' => if_neg (not_lt.mpr (le_of_lt (h i z')))
    rw [plsa_e_step_apply, Finset.sum_congr rfl fun z' _ => hraw z', hraw z]
    simp
  exact ⟨he, by rw [he, plsa_m_step_zero_posteriors]⟩

/-- Witness for C1 (corrected): a `1×1` model with both probabilities `1/2`
and threshold `1` satisfies the hypothesis, and there the E step output is
the zero matrix and the M step output is the pair of zero matrices. -/
theorem claimC1_amended_large_threshold_witness :
    @plsa_e_step 1 1 1 1 (fun _ => 0) (fun _ => 0)
      (fun _ _ => (1:ℚ)/2) (fun _ _ => (1:ℚ)/2) 1 = (fun _ _ => 0) ∧
    @plsa_m_step 1 1 1 1 (fun _ => 0) (fun _ => 0) (fun _ => 1)
      (@plsa_e_step 1 1 1 1 (fun _ => 0) (fun _ => 0)
        (fun _ _ => (1:ℚ)/2) (fun _ _ => (1:ℚ)/2) 1) =
      ((fun _ _ => 0), (fun _ _ => 0)) :=
  claimC1_amended_large_threshold (fun _ => 0) (fun _ => 0) (fun _ => 1)
    (fun _ _ => (1:ℚ)/2) (fun _ _ => (1:ℚ)/2) 1 (fun _ _ => by norm_num)

/-- Counterexample for C1 as stated: on the `1×1` data set with value `1`,
model matrices both `1/2` and threshold `1`, the threshold exceeds every
attainable product (`1/4 < 1`), yet the M step run on the resulting all-zero
posteriors does not leave the matrices unchanged at `(1/2, 1/2)` — it zeroes
them. -/
theorem claimC1_counterexample :
    (∀ _i _z : Fin 1, ((1:ℚ)/2) * ((1:ℚ)/2) < 1) ∧
    @plsa_m_step 1 1 1 1 (fun _ => 0) (fun _ => 0) (fun _ => 1)
      (@plsa_e_step 1 1 1 1 (fun _ => 0) (fun _ => 0)
        (fun _ _ => (1:ℚ)/2) (fun _ _ => (1:ℚ)/2) 1) ≠
      ((fun _ _ => (1:ℚ)/2), (fun _ _ => (1:ℚ)/2)) := by
  have hz : @plsa_e_step 1 1 1 1 (fun _ => 0) (fun _ => 0)
      (fun _ _ => (1:ℚ)/2) (fun _ _ => (1:ℚ)/2) 1 = (fun _ _ => 0) := by
    funext i z
    rw [plsa_e_step_apply]
    norm_num
  refine ⟨fun _ _ => by norm_num, fun hEq => ?_⟩
  have h00 := congrFun (congrFun (congrArg Prod.fst hEq) 0) 0
  rw [hz, plsa_m_step_zero_posteriors] at h00
  norm_num at h00

/-- Claim C3 (corrected): after a completed M step with non-negative data
values and non-negative posteriors, every row of the topic-word matrix sums
to `1` over words or is identically zero, and every row of the doc-topic
matrix sums to `1` over topics or is identically zero.  The original claim
said every row sums to `1`, which fails when a row's accumulator is zero
(the guarded division is skipped and the all-zero row sums to `0`). -/
theorem claimC3_amended_m_step_rows_stochastic_or_zero
    (vals : Fin nnz → ℚ) (p_z_given_wd : Fin nnz → Fin k → ℚ)
    (hv : ∀ i, 0 ≤ vals i) (hp : ∀ i z, 0 ≤ p_z_given_wd i z) :
    (∀ z, (∑ w, (plsa_m_step rows cols vals p_z_given_wd).1 z w) = 1 ∨
      ∀ w, (plsa_m_step rows cols vals p_z_given_wd).1 z w = 0) ∧
    (∀ d, (∑ z, (plsa_m_step rows cols vals p_z_given_wd).2 d z) = 1 ∨
      ∀ z, (plsa_m_step rows cols vals p_z_given_wd).2 d z = 0) := by
  have ht : ∀ i z, (0:ℚ) ≤ vals i * p_z_given_wd i z :=
    fun i z => mul_nonneg (hv i) (hp i z)
  constructor
  · intro z
    set N : ℚ := ∑ i, vals i * p_z_given_wd i z with hN
    have hstep : ∀ w, (plsa_m_step rows cols vals p_z_given_wd).1 z w =
        if 0 < N then
          (∑ i ∈ Finset.univ.filter (fun i => cols i = w),
            vals i * p_z_given_wd i z) / N
        else
          ∑ i ∈ Finset.univ.filter (fun i => cols i = w),
            vals i * p_z_given_wd i z := fun w => rfl
    have hfiber : (∑ w, ∑ i ∈ Finset.univ.filter (fun i => cols i = w),
        vals i * p_z_given_wd i z) = N :=
      Finset.sum_fiberwise Finset.univ cols (fun i => vals i * p_z_given_wd i z)
    by_cases hpos : 0 < N
    · left
      calc (∑ w, (plsa_m_step rows cols vals p_z_given_wd).1 z w)
          = ∑ w, (∑ i ∈ Finset.univ.filter (fun i => cols i = w),
              vals i * p_z_given_wd i z) / N := by
            exact Finset.sum_congr rfl fun w _ => by rw [hstep w, if_pos hpos]
        _ = (∑ w, ∑ i ∈ Finset.univ.filter (fun i => cols i = w),
              vals i * p_z_given_wd i z) / N := (Finset.sum_div _ _ _).symm
        _ = N / N := by rw [hfiber]
        _ = 1 := div_self (ne_of_gt hpos)
    · right
      intro w
      have hN0 : N = 0 :=
        le_antisymm (not_lt.mp hpos) (Finset.sum_nonneg fun i _ => ht i z)
      have hterm : ∀ i ∈ Finset.univ, vals i * p_z_given_wd i z = 0 :=
        (Finset.sum_eq_zero_iff_of_nonneg fun i _ => ht i z).mp (hN.symm.trans hN0)
      rw [hstep w, if_neg hpos]
      exact Finset.sum_eq_zero fun i _ => hterm i (Finset.mem_univ i)
  · intro d
    set N : ℚ := ∑ i ∈ Finset.univ.filter (fun i => rows i = d),
      ∑ z, vals i * p_z_given_wd i z with hN
    have hstep : ∀ z, (plsa_m_step rows cols vals p_z_given_wd).2 d z =
        if 0 < N then
          (∑ i ∈ Finset.univ.filter (fun i => rows i = d),
            vals i * p_z_given_wd i z) / N
        else
          ∑ i ∈ Finset.univ.filter (fun i => rows i = d),
            vals i * p_z_given_wd i z := fun z => rfl
    have hswap : (∑ z, ∑ i ∈ Finset.univ.filter (fun i => rows i = d),
        vals i * p_z_given_wd i z) = N := Finset.sum_comm
    by_cases hpos : 0 < N
    · left
      calc (∑ z, (plsa_m_step rows cols vals p_z_given_wd).2 d z)
          = ∑ z, (∑ i ∈ Finset.univ.filter (fun i => rows i = d),
              vals i * p_z_given_wd i z) / N := by
            exact Finset.sum_congr rfl fun z _ => by rw [hstep z, if_pos hpos]
        _ = (∑ z, ∑ i ∈ Finset.univ.filter (fun i => rows i = d),
              vals i * p_z_given_wd i z) / N := (Finset.sum_div _ _ _).symm
        _ = N / N := by rw [hswap]
        _ = 1 := div_self (ne_of_gt hpos)
    · right
      intro z
      have hN0 : N = 0 := le_antisymm (not_lt.mp hpos)
        (Finset.sum_nonneg fun i _ => Finset.sum_nonneg fun z' _ => ht i z')
      have hin : ∀ i ∈ Finset.univ.filter (fun i => rows i = d),
          (∑ z', vals i * p_z_given_wd i z') = 0 :=
        (Finset.sum_eq_zero_iff_of_nonneg
          fun i _ => Finset.sum_nonneg fun z' _ => ht i z').mp (hN.symm.trans hN0)
      have hterm : ∀ i ∈ Finset.univ.filter (fun i => rows i = d),
          vals i * p_z_given_wd i z = 0 := by
        intro i hi
        exact (Finset.sum_eq_zero_iff_of_nonneg fun z' _ => ht i z').mp
          (hin i hi) z (Finset.mem_univ z)
      rw [hstep z, if_neg hpos]
      exact Finset.sum_eq_zero hterm

/-- Witness for C3 (corrected): with the all-ones `1×1` data and posteriors
the hypotheses hold and the conclusion follows. -/
theorem claimC3_amended_m_step_rows_stochastic_or_zero_witness :
    (∀ z : Fin 1, (∑ w, (@plsa_m_step 1 1 1 1 (fun _ => 0) (fun _ => 0)
        (fun _ => 1) (fun _ _ => 1)).1 z w) = 1 ∨
      ∀ w, (@plsa_m_step 1 1 1 1 (fun _ => 0) (fun _ => 0)
        (fun _ => 1) (fun _ _ => 1)).1 z w = 0) ∧
    (∀ d : Fin 1, (∑ z, (@plsa_m_step 1 1 1 1 (fun _ => 0) (fun _ => 0)
        (fun _ => 1) (fun _ _ => 1)).2 d z) = 1 ∨
      ∀ z, (@plsa_m_step 1 1 1 1 (fun _ => 0) (fun _ => 0)
        (fun _ => 1) (fun _ _ => 1)).2 d z = 0) :=
  claimC3_amended_m_step_rows_stochastic_or_zero (fun _ => 0) (fun _ => 0)
    (fun _ => 1) (fun _ _ => 1) (fun _ => by norm_num) (fun _ _ => by norm_num)

/-- Counterexample for C3 as stated: on the `1×1` data set with value `1`,
running the E step with threshold `1` on the model with both probabilities
`1/2` yields all-zero posteriors, and the completed M step on them produces a
topic-word row summing to `0`, not `1`. -/
theorem claimC3_counterexample :
    (∑ w : Fin 1, (@plsa_m_step 1 1 1 1 (fun _ => 0) (fun _ => 0) (fun _ => 1)
      (@plsa_e_step 1 1 1 1 (fun _ => 0) (fun _ => 0)
        (fun _ _ => (1:ℚ)/2) (fun _ _ => (1:ℚ)/2) 1)).1 0 w) ≠ 1 := by
  have hz : @plsa_e_step 1 1 1 1 (fun _ => 0) (fun _ => 0)
      (fun _ _ => (1:ℚ)/2) (fun _ _ => (1:ℚ)/2) 1 = (fun _ _ => 0) := by
    funext i z
    rw [plsa_e_step_apply]
    norm_num
  rw [hz, plsa_m_step_zero_posteriors]
  norm_num

/-- Claim C6: for non-negative model matrices, the E step with
`e_step_threshold = 0` produces exactly the posteriors of the unthresholded
expectation step that always stores `P(w|z)*P(z|d)` and normalizes by the row
sum (in exact arithmetic the "floating tolerance" of the spec is `0`). -/
theorem claimC6_zero_threshold_equivalence
    (p_w_given_z : Fin k → Fin m → ℚ) (p_z_given_d : Fin n → Fin k → ℚ)
    (hw : ∀ z w, 0 ≤ p_w_given_z z w) (hd : ∀ d z, 0 ≤ p_z_given_d d z) :
    plsa_e_step rows cols p_w_given_z p_z_given_d 0 =
      plsa_e_step_unthresholded rows cols p_w_given_z p_z_given_d := by
  funext i z
  have hv : ∀ z', (0:ℚ) ≤ p_w_given_z z' (cols i) * p_z_given_d (rows i) z' :=
    fun z' => mul_nonneg (hw _ _) (hd _ _)
  have key : ∀ z' : Fin k,
      (if (0:ℚ) < p_w_given_z z' (cols i) * p_z_given_d (rows i) z' then
        p_w_given_z z' (cols i) * p_z_given_d (rows i) z' else 0) =
      p_w_given_z z' (cols i) * p_z_given_d (rows i) z' := by
    intro z'
    rcases lt_or_eq_of_le (hv z') with h | h
    · rw [if_pos h]
    · rw [← h, if_neg (lt_irrefl 0)]
  rw [plsa_e_step_apply, plsa_e_step_unthresholded_apply,
    Finset.sum_congr rfl fun z' _ => key z', key z]
  by_cases hs : 0 < ∑ z', p_w_given_z z' (cols i) * p_z_given_d (rows i) z'
  · rw [if_pos hs]
  · rw [if_neg hs]
    have h0 : (∑ z', p_w_given_z z' (cols i) * p_z_given_d (rows i) z') = 0 :=
      le_antisymm (not_lt.mp hs) (Finset.sum_nonneg fun z' _ => hv z')
    have hz : p_w_given_z z (cols i) * p_z_given_d (rows i) z = 0 :=
      (Finset.sum_eq_zero_iff_of_nonneg fun z' _ => hv z').mp h0 z (Finset.mem_univ z)
    rw [hz, zero_div]

/-- Witness for C6: on a `1×1` model with both probabilities `1/2` the
hypotheses hold, and the two E-step variants agree. -/
theorem claimC6_zero_threshold_equivalence_witness :
    @plsa_e_step 1 1 1 1 (fun _ => 0) (fun _ => 0)
      (fun _ _ => (1:ℚ)/2) (fun _ _ => (1:ℚ)/2) 0 =
    @plsa_e_step_unthresholded 1 1 1 1 (fun _ => 0) (fun _ => 0)
      (fun _ _ => (1:ℚ)/2) (fun _ _ => (1:ℚ)/2) :=
  claimC6_zero_threshold_equivalence (fun _ => 0) (fun _ => 0)
    (fun _ _ => (1:ℚ)/2) (fun _ _ => (1:ℚ)/2)
    (fun _ _ => by norm_num) (fun _ _ => by norm_num)

end Kernels

/-- The convergence comparison `change / np.abs(L) < tolerance` used by both
loops, on exact rationals.  An IEEE division by a zero denominator yields an
infinity or a NaN and neither compares `<` a finite tolerance, so the
zero-denominator case is modelled as `false`. -/
def ratioBelow (change L tol : ℚ) : Bool :=
  if |L| = 0 then false else decide (change / |L| < tol)

/-- Log-likelihood of the data under the model (`log_likelihood` in
`plsa.py`): `∑ i, X_vals[i] * log (∑ z, P(w|z) P(z|d))`.  `np.log` is the
real logarithm, which is not rational, so the evaluator is parametrised by
the scalar log function `logF`; the summation structure is the source's. -/
def log_likelihood {n m k nnz : ℕ} (logF : ℚ → ℚ) (rows : Fin nnz → Fin n)
    (cols : Fin nnz → Fin m) (vals : Fin nnz → ℚ)
    (p_w_given_z : Fin k → Fin m → ℚ) (p_z_given_d : Fin n → Fin k → ℚ) : ℚ :=
  ∑ i, vals i * logF (∑ z, p_w_given_z z (cols i) * p_z_given_d (rows i) z)

section FitLoop

variable {n m k nnz : ℕ} (logF : ℚ → ℚ) (rows : Fin nnz → Fin n)
  (cols : Fin nnz → Fin m) (vals : Fin nnz → ℚ)

/-- One EM iteration of the fit loop: `plsa_e_step` followed by
`plsa_m_step`, acting on the pair `(p_w_given_z, p_z_given_d)`. -/
def plsa_em_step (τ : ℚ) (s : (Fin k → Fin m → ℚ) × (Fin n → Fin k → ℚ)) :
    (Fin k → Fin m → ℚ) × (Fin n → Fin k → ℚ) :=
  plsa_m_step rows cols vals (plsa_e_step rows cols s.1 s.2 τ)

/-- The `for i in range(n_iter)` loop of `plsa_fit_inner`, written as fuel
recursion.  `fuel` is the number of iterations still allowed, `i` the current
iteration index, `s` the current `(p_w_given_z, p_z_given_d)` pair and `prev`
the `previous_log_likelihood` variable.  Besides the source's state the
embedding returns the number of iterations executed and whether the loop
exited through `break`, so that the claims about the stopping behaviour can
be stated. -/
def fitLoopGo (T : ℕ) (tol τ : ℚ) :
    ℕ → ℕ → ((Fin k → Fin m → ℚ) × (Fin n → Fin k → ℚ)) → ℚ →
      ((Fin k → Fin m → ℚ) × (Fin n → Fin k → ℚ)) × ℕ × Bool
  | 0, i, s, _ => (s, i, false)
  | fuel + 1, i, s, prev =>
    let s' := plsa_em_step rows cols vals τ s
    if i % T = 0 then
      let cur := log_likelihood logF rows cols vals s'.1 s'.2
      if ratioBelow |cur - prev| cur tol then (s', i + 1, true)
      else fitLoopGo T tol τ fuel (i + 1) s' cur
    else fitLoopGo T tol τ fuel (i + 1) s' prev

/-- The fit loop of `plsa_fit_inner`, started as the source starts it:
iteration index `0`, initial model pair, and `previous_log_likelihood`
computed on the initial model. -/
def fitRun (p_w_given_z : Fin k → Fin m → ℚ) (p_z_given_d : Fin n → Fin k → ℚ)
    (n_iter T : ℕ) (tol τ : ℚ) :
    ((Fin k → Fin m → ℚ) × (Fin n → Fin k → ℚ)) × ℕ × Bool :=
  fitLoopGo logF rows cols vals T tol τ n_iter 0 (p_w_given_z, p_z_given_d)
    (log_likelihood logF rows cols vals p_w_given_z p_z_given_d)

/-- `plsa_fit_inner` from `plsa.py`: run the fit loop and return the pair
`(p_z_given_d, p_w_given_z)`, in that order, exactly as the source's
`return` does in both terminal states. -/
def plsa_fit_inner (p_w_given_z : Fin k → Fin m → ℚ)
    (p_z_given_d : Fin n → Fin k → ℚ) (n_iter T : ℕ) (tol τ : ℚ) :
    (Fin n → Fin k → ℚ) × (Fin k → Fin m → ℚ) :=
  let r := fitRun logF rows cols vals p_w_given_z p_z_given_d n_iter T tol τ
  (r.1.2, r.1.1)

/-- The model pair after `j` EM iterations from `s0`. -/
def emIterate (τ : ℚ) (j : ℕ)
    (s0 : (Fin k → Fin m → ℚ) × (Fin n → Fin k → ℚ)) :
    (Fin k → Fin m → ℚ) × (Fin n → Fin k → ℚ) :=
  (plsa_em_step rows cols vals τ)^[j] s0

/-- Log-likelihood of a model pair. -/
def llOf (s : (Fin k → Fin m → ℚ) × (Fin n → Fin k → ℚ)) : ℚ :=
  log_likelihood logF rows cols vals s.1 s.2

/-- Value of the `previous_log_likelihood` variable at the start of iteration
`i` of a run of the fit loop that has not broken before `i`: the baseline
log-likelihood when no checkpoint has happened yet (`i = 0`), else the
log-likelihood recorded at the last checkpoint before `i`, which is iteration
`T * ((i-1) / T)`. -/
def fitPrevLL (T : ℕ) (τ : ℚ)
    (s0 : (Fin k → Fin m → ℚ) × (Fin n → Fin k → ℚ)) (i : ℕ) : ℚ :=
  if i = 0 then llOf logF rows cols vals s0
  else llOf logF rows cols vals (emIterate rows cols vals τ (T * ((i - 1) / T) + 1) s0)

/-- Whether the convergence test fires at iteration `i` of the fit loop
(assuming no earlier break): `i` is a checkpoint (`i % T = 0`) and the
relative-change comparison on the log-likelihood after iteration `i` against
the previous recorded log-likelihood is below tolerance. -/
def fitBreakAt (T : ℕ) (tol τ : ℚ)
    (s0 : (Fin k → Fin m → ℚ) × (Fin n → Fin k → ℚ)) (i : ℕ) : Bool :=
  decide (i % T = 0) &&
    ratioBelow
      |llOf logF rows cols vals (emIterate rows cols vals τ (i + 1) s0) -
        fitPrevLL logF rows cols vals T τ s0 i|
      (llOf logF rows cols vals (emIterate rows cols vals τ (i + 1) s0)) tol

/-- The fit loop started at iteration `i` in the state a break-free run
reaches at `i`. -/
def fitGoFrom (T : ℕ) (tol τ : ℚ)
    (s0 : (Fin k → Fin m → ℚ) × (Fin n → Fin k → ℚ)) (fuel i : ℕ) :
    ((Fin k → Fin m → ℚ) × (Fin n → Fin k → ℚ)) × ℕ × Bool :=
  fitLoopGo logF rows cols vals T tol τ fuel i (emIterate rows cols vals τ i s0)
    (fitPrevLL logF rows cols vals T τ s0 i)

theorem emIterate_succ (τ : ℚ) (j : ℕ)
    (s0 : (Fin k → Fin m → ℚ) × (Fin n → Fin k → ℚ)) :
    emIterate rows cols vals τ (j + 1) s0 =
      plsa_em_step rows cols vals τ (emIterate rows cols vals τ j s0) :=
  Function.iterate_succ_apply' _ _ _

theorem fitPrevLL_succ_checkpoint (T : ℕ) (τ : ℚ)
    (s0 : (Fin k → Fin m → ℚ) × (Fin n → Fin k → ℚ)) (i : ℕ)
    (hmod : i % T = 0) :
    fitPrevLL logF rows cols vals T τ s0 (i + 1) =
      llOf logF rows cols vals (emIterate rows cols vals τ (i + 1) s0) := by
  unfold fitPrevLL
  rw [if_neg (Nat.succ_ne_zero i)]
  have : T * ((i + 1 - 1) / T) = i := by
    rw [Nat.succ_sub_one]
    exact Nat.mul_div_cancel' (Nat.dvd_of_mod_eq_zero hmod)
  rw [this]

theorem fitPrevLL_succ_nocheckpoint (T : ℕ) (τ : ℚ)
    (s0 : (Fin k → Fin m → ℚ) × (Fin n → Fin k → ℚ)) (i : ℕ)
    (hmod : i % T ≠ 0) :
    fitPrevLL logF rows cols vals T τ s0 (i + 1) =
      fitPrevLL logF rows cols vals T τ s0 i := by
  have hi : i ≠ 0 := by
    intro h
    exact hmod (by rw [h, Nat.zero_mod])
  obtain ⟨j, rfl⟩ := Nat.exists_eq_succ_of_ne_zero hi
  unfold fitPrevLL
  rw [if_neg (Nat.succ_ne_zero (j + 1)), if_neg (Nat.succ_ne_zero j)]
  have hnd : ¬ T ∣ j + 1 := fun hdvd => hmod (Nat.dvd_iff_mod_eq_zero.mp hdvd)
  rw [Nat.succ_sub_one, Nat.succ_sub_one, Nat.succ_div_of_not_dvd hnd]

/-- Invariant of the fit loop: started at iteration `i` of a break-free run
with `fuel` iterations left, the loop executes between `0` and `fuel` more
iterations, its state is always the pure EM iterate of the start state, it
reports an early break exactly when some iteration in range fires the
convergence test, it exhausts the fuel when no break fires, and on a break it
stops right after the first firing iteration. -/
theorem fitLoopGo_spec (T : ℕ) (tol τ : ℚ)
    (s0 : (Fin k → Fin m → ℚ) × (Fin n → Fin k → ℚ)) :
    ∀ fuel i : ℕ,
      (∀ j, j < i → fitBreakAt logF rows cols vals T tol τ s0 j = false) →
      (i ≤ (fitGoFrom logF rows cols vals T tol τ s0 fuel i).2.1 ∧
        (fitGoFrom logF rows cols vals T tol τ s0 fuel i).2.1 ≤ i + fuel) ∧
      (fitGoFrom logF rows cols vals T tol τ s0 fuel i).1 =
        emIterate rows cols vals τ
          (fitGoFrom logF rows cols vals T tol τ s0 fuel i).2.1 s0 ∧
      ((fitGoFrom logF rows cols vals T tol τ s0 fuel i).2.2 = true ↔
        ∃ j, i ≤ j ∧ j < i + fuel ∧
          fitBreakAt logF rows cols vals T tol τ s0 j = true) ∧
      ((fitGoFrom logF rows cols vals T tol τ s0 fuel i).2.2 = false →
        (fitGoFrom logF rows cols vals T tol τ s0 fuel i).2.1 = i + fuel) ∧
      ((fitGoFrom logF rows cols vals T tol τ s0 fuel i).2.2 = true →
        0 < (fitGoFrom logF rows cols vals T tol τ s0 fuel i).2.1 ∧
        fitBreakAt logF rows cols vals T tol τ s0
          ((fitGoFrom logF rows cols vals T tol τ s0 fuel i).2.1 - 1) = true ∧
        ∀ j, j < (fitGoFrom logF rows cols vals T tol τ s0 fuel i).2.1 - 1 →
          fitBreakAt logF rows cols vals T tol τ s0 j = false) := by
  intro fuel
  induction fuel with
  | zero =>
    intro i _
    have hz1 : (fitGoFrom logF rows cols vals T tol τ s0 0 i).2.1 = i := rfl
    have hz2 : (fitGoFrom logF rows cols vals T tol τ s0 0 i).2.2 = false := rfl
    have hz3 : (fitGoFrom logF rows cols vals T tol τ s0 0 i).1 =
        emIterate rows cols vals τ i s0 := rfl
    rw [hz1, hz2, hz3]
    refine ⟨⟨le_refl i, by omega⟩, rfl, ?_, fun _ => by omega,
      fun h => absurd h (by simp)⟩
    constructor
    · intro h
      exact absurd h (by simp)
    · rintro ⟨j, hj1, hj2, _⟩
      omega
  | succ fuel ih =>
    intro i hnb
    have hunfold : fitGoFrom logF rows cols vals T tol τ s0 (fuel + 1) i =
        (if i % T = 0 then
          (if ratioBelow
              |llOf logF rows cols vals (emIterate rows cols vals τ (i + 1) s0) -
                fitPrevLL logF rows cols vals T τ s0 i|
              (llOf logF rows cols vals (emIterate rows cols vals τ (i + 1) s0))
              tol then
            (emIterate rows cols vals τ (i + 1) s0, i + 1, true)
          else
            fitLoopGo logF rows cols vals T tol τ fuel (i + 1)
              (emIterate rows cols vals τ (i + 1) s0)
              (llOf logF rows cols vals (emIterate rows cols vals τ (i + 1) s0)))
        else
          fitLoopGo logF rows cols vals T tol τ fuel (i + 1)
            (emIterate rows cols vals τ (i + 1) s0)
            (fitPrevLL logF rows cols vals T τ s0 i)) := by
      simp only [fitGoFrom, fitLoopGo, llOf]
      rw [← emIterate_succ]
    by_cases hmod : i % T = 0
    · rw [if_pos hmod] at hunfold
      by_cases hbr : ratioBelow
          |llOf logF rows cols vals (emIterate rows cols vals τ (i + 1) s0) -
            fitPrevLL logF rows cols vals T τ s0 i|
          (llOf logF rows cols vals (emIterate rows cols vals τ (i + 1) s0))
          tol = true
      · rw [if_pos hbr] at hunfold
        have hBi : fitBreakAt logF rows cols vals T tol τ s0 i = true := by
          unfold fitBreakAt
          rw [Bool.and_eq_true]
          exact ⟨decide_eq_true hmod, hbr⟩
        have hc1 : (fitGoFrom logF rows cols vals T tol τ s0 (fuel + 1) i).2.1 =
            i + 1 := by rw [hunfold]
        have hc2 : (fitGoFrom logF rows cols vals T tol τ s0 (fuel + 1) i).2.2 =
            true := by rw [hunfold]
        have hc3 : (fitGoFrom logF rows cols vals T tol τ s0 (fuel + 1) i).1 =
            emIterate rows cols vals τ (i + 1) s0 := by rw [hunfold]
        rw [hc1, hc2, hc3]
        refine ⟨⟨by omega, by omega⟩, rfl, ?_, fun h => absurd h (by simp), ?_⟩
        · exact ⟨fun _ => ⟨i, le_refl i, by omega, hBi⟩, fun _ => rfl⟩
        · intro _
          refine ⟨by omega, ?_, ?_⟩
          · simpa using hBi
          · intro j hj
            exact hnb j (by omega)
      · rw [if_neg hbr] at hunfold
        have hBi : fitBreakAt logF rows cols vals T tol τ s0 i = false := by
          unfold fitBreakAt
          rw [Bool.eq_false_iff]
          intro h
          rw [Bool.and_eq_true] at h
          exact hbr h.2
        have hnb' : ∀ j, j < i + 1 →
            fitBreakAt logF rows cols vals T tol τ s0 j = false := by
          intro j hj
          rcases Nat.lt_or_ge j i with h | h
          · exact hnb j h
          · have : j = i := by omega
            rw [this]
            exact hBi
        have hfold : fitGoFrom logF rows cols vals T tol τ s0 (fuel + 1) i =
            fitGoFrom logF rows cols vals T tol τ s0 fuel (i + 1) := by
          rw [hunfold]
          unfold fitGoFrom
          rw [fitPrevLL_succ_checkpoint logF rows cols vals T τ s0 i hmod]
        obtain ⟨⟨h1a, h1b⟩, h2, h3, h4, h5⟩ := ih (i + 1) hnb'
        rw [hfold]
        refine ⟨⟨by omega, by omega⟩, h2, ?_, fun hf => by rw [h4 hf]; omega, h5⟩
        constructor
        · intro ht
          obtain ⟨j, hj1, hj2, hj3⟩ := h3.mp ht
          exact ⟨j, by omega, by omega, hj3⟩
        · rintro ⟨j, hj1, hj2, hj3⟩
          apply h3.mpr
          rcases Nat.lt_or_ge j (i + 1) with h | h
          · have hji : j = i := by omega
            rw [hji, hBi] at hj3
            exact absurd hj3 (by simp)
          · exact ⟨j, h, by omega, hj3⟩
    · rw [if_neg hmod] at hunfold
      have hBi : fitBreakAt logF rows cols vals T tol τ s0 i = false := by
        unfold fitBreakAt
        rw [Bool.eq_false_iff]
        intro h
        rw [Bool.and_eq_true] at h
        exact hmod (of_decide_eq_true h.1)
      have hnb' : ∀ j, j < i + 1 →
          fitBreakAt logF rows cols vals T tol τ s0 j = false := by
        intro j hj
        rcases Nat.lt_or_ge j i with h | h
        · exact hnb j h
        · have : j = i := by omega
          rw [this]
          exact hBi
      have hfold : fitGoFrom logF rows cols vals T tol τ s0 (fuel + 1) i =
          fitGoFrom logF rows cols vals T tol τ s0 fuel (i + 1) := by
        rw [hunfold]
        unfold fitGoFrom
        rw [fitPrevLL_succ_nocheckpoint logF rows cols vals T τ s0 i hmod]
      obtain ⟨⟨h1a, h1b⟩, h2, h3, h4, h5⟩ := ih (i + 1) hnb'
      rw [hfold]
      refine ⟨⟨by omega, by omega⟩, h2, ?_, fun hf => by rw [h4 hf]; omega, h5⟩
      constructor
      · intro ht
        obtain ⟨j, hj1, hj2, hj3⟩ := h3.mp ht
        exact ⟨j, by omega, by omega, hj3⟩
      · rintro ⟨j, hj1, hj2, hj3⟩
        apply h3.mpr
        rcases Nat.lt_or_ge j (i + 1) with h | h
        · have hji : j = i := by omega
          rw [hji, hBi] at hj3
          exact absurd hj3 (by simp)
        · exact ⟨j, h, by omega, hj3⟩

/-- The stopping behaviour claim C5 asserts of `plsa_fit_inner`, gathered in
one predicate: the loop executes at most `n_iter` EM iterations; its final
model pair is exactly the EM iterate of the initial pair after as many
iterations as were executed; both terminal states return the current
`(p_z_given_d, p_w_given_z)` pair; the loop breaks early exactly when some
iteration `i < n_iter` with `i % n_iter_per_test = 0` passes the
relative-change test `|L_i - L_prev| / |L_i| < tolerance` (with `L_prev`
updated at every previous checkpoint); without a break it runs all `n_iter`
iterations; and on a break it stops right after the first passing
checkpoint. -/
def fitInnerClaim (n_iter T : ℕ) (tol τ : ℚ)
    (p_w_given_z : Fin k → Fin m → ℚ) (p_z_given_d : Fin n → Fin k → ℚ) : Prop :=
  (fitRun logF rows cols vals p_w_given_z p_z_given_d n_iter T tol τ).2.1 ≤ n_iter ∧
  (fitRun logF rows cols vals p_w_given_z p_z_given_d n_iter T tol τ).1 =
    emIterate rows cols vals τ
      (fitRun logF rows cols vals p_w_given_z p_z_given_d n_iter T tol τ).2.1
      (p_w_given_z, p_z_given_d) ∧
  plsa_fit_inner logF rows cols vals p_w_given_z p_z_given_d n_iter T tol τ =
    ((fitRun logF rows cols vals p_w_given_z p_z_given_d n_iter T tol τ).1.2,
      (fitRun logF rows cols vals p_w_given_z p_z_given_d n_iter T tol τ).1.1) ∧
  ((fitRun logF rows cols vals p_w_given_z p_z_given_d n_iter T tol τ).2.2 = true ↔
    ∃ i, i < n_iter ∧
      fitBreakAt logF rows cols vals T tol τ (p_w_given_z, p_z_given_d) i = true) ∧
  ((fitRun logF rows cols vals p_w_given_z p_z_given_d n_iter T tol τ).2.2 = false →
    (fitRun logF rows cols vals p_w_given_z p_z_given_d n_iter T tol τ).2.1 = n_iter) ∧
  ((fitRun logF rows cols vals p_w_given_z p_z_given_d n_iter T tol τ).2.2 = true →
    0 < (fitRun logF rows cols vals p_w_given_z p_z_given_d n_iter T tol τ).2.1 ∧
    fitBreakAt logF rows cols vals T tol τ (p_w_given_z, p_z_given_d)
      ((fitRun logF rows cols vals p_w_given_z p_z_given_d n_iter T tol τ).2.1 - 1)
      = true ∧
    ∀ j, j < (fitRun logF rows cols vals p_w_given_z p_z_given_d n_iter T tol τ).2.1 - 1 →
      fitBreakAt logF rows cols vals T tol τ (p_w_given_z, p_z_given_d) j = false)

/-- Claim C5: the fit loop of `plsa_fit_inner` performs at most `n_iter` EM
iterations (each `plsa_e_step` then `plsa_m_step`), recomputes the
log-likelihood exactly at iterations `i` with `i % n_iter_per_test = 0`,
stops early iff such a checkpoint passes `|L_i - L_prev| / |L_i| <
tolerance` (otherwise recording `L_prev = L_i`), and returns the current
`(p_z_given_d, p_w_given_z)` pair in both terminal states.  The hypothesis
`0 < n_iter_per_test` reflects that Python's `i % 0` raises. -/
theorem claimC5_fit_inner_stopping
    (p_w_given_z : Fin k → Fin m → ℚ) (p_z_given_d : Fin n → Fin k → ℚ)
    (n_iter T : ℕ) (tol τ : ℚ) (_hT : 0 < T) :
    fitInnerClaim logF rows cols vals n_iter T tol τ p_w_given_z p_z_given_d := by
  have key : fitGoFrom logF rows cols vals T tol τ (p_w_given_z, p_z_given_d)
      n_iter 0 =
      fitRun logF rows cols vals p_w_given_z p_z_given_d n_iter T tol τ := rfl
  obtain ⟨⟨h1a, h1b⟩, h2, h3, h4, h5⟩ :=
    fitLoopGo_spec logF rows cols vals T tol τ (p_w_given_z, p_z_given_d)
      n_iter 0 (fun j hj => absurd hj (Nat.not_lt_zero j))
  rw [key] at h1a h1b h2 h3 h4 h5
  refine ⟨by omega, h2, rfl, ?_, fun hf => by rw [h4 hf]; omega, h5⟩
  constructor
  · intro ht
    obtain ⟨j, _, hj2, hj3⟩ := h3.mp ht
    exact ⟨j, by omega, hj3⟩
  · rintro ⟨j, hj1, hj3⟩
    exact h3.mpr ⟨j, Nat.zero_le j, by omega, hj3⟩

/-- Witness for C5: the stopping-behaviour predicate holds on the concrete
`1×1` instance with `n_iter = 1`, `n_iter_per_test = 1`, tolerance `1/2`,
threshold `0` and the constant-zero log function. -/
theorem claimC5_fit_inner_stopping_witness :
    @fitInnerClaim 1 1 1 1 (fun _ => 0) (fun _ => 0) (fun _ => 0) (fun _ => 1)
      1 1 ((1:ℚ)/2) 0 (fun _ _ => 1) (fun _ _ => 1) :=
  claimC5_fit_inner_stopping (fun _ => 0) (fun _ => 0) (fun _ => 0) (fun _ => 1)
    (fun _ _ => 1) (fun _ _ => 1) 1 1 ((1:ℚ)/2) 0 (by norm_num)

end FitLoop

/-- Modelled from the spec: `enstop.utils.normalize` is imported by
`plsa.py` but its source is not among the provided files; per §3 and §4.1 it
row-normalizes a matrix so each row sums to `1`.  All-zero rows are left
untouched; no claim below depends on the values this produces. -/
def rowNormalize {α : Type} [Field α] [DecidableEq α] {a b : ℕ}
    (M : Fin a → Fin b → α) : Fin a → Fin b → α :=
  fun i j => if (∑ j', M i j') = 0 then M i j else M i j / ∑ j', M i j'

/-- Mutable state of `plsa_refit`: the numba routine holds the externally
supplied `topics` array, the document-topic matrix `p_z_given_d`, the
posterior buffer `p_z_given_wd` and the accumulator `norm_pdz`, all passed by
reference into the step routines.  Threading the whole state through the
loop makes the frame effect of each step visible. -/
structure RefitState (n m k nnz : ℕ) where
  topics : Fin k → Fin m → ℚ
  p_z_given_d : Fin n → Fin k → ℚ
  p_z_given_wd : Fin nnz → Fin k → ℚ
  norm_pdz : Fin n → ℚ

section Refit

variable {n m k nnz : ℕ} (logF : ℚ → ℚ) (rows : Fin nnz → Fin n)
  (cols : Fin nnz → Fin m) (vals : Fin nnz → ℚ)

/-- The E-step call of the refit loop, `plsa_e_step(X_rows, X_cols, X_vals,
topics, p_z_given_d, p_z_given_wd, e_step_thresh)`: overwrites the posterior
buffer and touches nothing else in the state. -/
def refitEStep (τ : ℚ) (s : RefitState n m k nnz) : RefitState n m k nnz :=
  { s with p_z_given_wd := plsa_e_step rows cols s.topics s.p_z_given_d τ }

/-- `plsa_refit_m_step` from `plsa.py`: zeroes `p_z_given_d` and `norm_pdz`,
accumulates `X_vals[i] * p_z_given_wd[i, z]` into `p_z_given_d[rows i, z]`
and `norm_pdz[rows i]`, then divides each document row by its accumulator
when that accumulator is positive.  The topics array `p_w_given_z` is only
returned, never written, so the state update leaves it unchanged. -/
def plsa_refit_m_step (s : RefitState n m k nnz) : RefitState n m k nnz :=
  let norm_pdz : Fin n → ℚ := fun d =>
    ∑ i ∈ Finset.univ.filter (fun i => rows i = d), ∑ z, vals i * s.p_z_given_wd i z
  let p_z_given_d : Fin n → Fin k → ℚ := fun d z =>
    let acc := ∑ i ∈ Finset.univ.filter (fun i => rows i = d),
      vals i * s.p_z_given_wd i z
    if 0 < norm_pdz d then acc / norm_pdz d else acc
  { s with p_z_given_d := p_z_given_d, norm_pdz := norm_pdz }

/-- One iteration of the refit loop: E step then constrained M step. -/
def refitIterStep (τ : ℚ) (s : RefitState n m k nnz) : RefitState n m k nnz :=
  plsa_refit_m_step rows vals (refitEStep rows cols τ s)

/-- The refit state after `j` iterations from `s`. -/
def refitIterate (τ : ℚ) (j : ℕ) (s : RefitState n m k nnz) :
    RefitState n m k nnz :=
  (refitIterStep rows cols vals τ)^[j] s

/-- The `for i in range(n_iter)` loop of `plsa_refit`, written as fuel
recursion like `fitLoopGo`.  The difference to the fit loop is the guard
`if current_log_likelihood > 0` wrapped around the relative-change test:
when the current log-likelihood is not strictly positive the checkpoint
neither breaks nor updates `previous_log_likelihood`. -/
def refitLoopGo (T : ℕ) (tol τ : ℚ) :
    ℕ → ℕ → RefitState n m k nnz → ℚ → RefitState n m k nnz × ℕ × Bool
  | 0, i, s, _ => (s, i, false)
  | fuel + 1, i, s, prev =>
    let s' := refitIterStep rows cols vals τ s
    if i % T = 0 then
      let cur := log_likelihood logF rows cols vals s'.topics s'.p_z_given_d
      if 0 < cur then
        if ratioBelow |cur - prev| cur tol then (s', i + 1, true)
        else refitLoopGo T tol τ fuel (i + 1) s' cur
      else refitLoopGo T tol τ fuel (i + 1) s' prev
    else refitLoopGo T tol τ fuel (i + 1) s' prev

/-- Initial refit state: the externally supplied topics, the freshly drawn
and row-normalized `p_z_given_d` (the uniform(0,1) draw
`np.random.random((n_documents, k))` is supplied as the oracle argument
`rng`), the zero posterior buffer and the zero accumulator. -/
def refitInitState (rng : Fin n → Fin k → ℚ) (topics : Fin k → Fin m → ℚ) :
    RefitState n m k nnz :=
  ⟨topics, rowNormalize rng, fun _ _ => 0, fun _ => 0⟩

/-- `plsa_refit` from `plsa.py`: initialize the state, run the loop starting
from the baseline log-likelihood of the initial model, and return the final
`p_z_given_d`. -/
def plsa_refit (rng : Fin n → Fin k → ℚ) (topics : Fin k → Fin m → ℚ)
    (n_iter T : ℕ) (tol τ : ℚ) : Fin n → Fin k → ℚ :=
  (refitLoopGo logF rows cols vals T tol τ n_iter 0
    (refitInitState rng topics)
    (log_likelihood logF rows cols vals topics (rowNormalize rng))).1.p_z_given_d

/-- A break-free refit run with only non-positive checkpoint log-likelihoods
executes all its fuel: the guard `current_log_likelihood > 0` blocks both the
break and the `previous_log_likelihood` update, so the loop degenerates to
pure iteration. -/
theorem refitLoopGo_nonpositive (T : ℕ) (tol τ : ℚ) (s0 : RefitState n m k nnz) :
    ∀ fuel i prev,
      (∀ j, i ≤ j → j < i + fuel → j % T = 0 →
        log_likelihood logF rows cols vals
          (refitIterate rows cols vals τ (j + 1) s0).topics
          (refitIterate rows cols vals τ (j + 1) s0).p_z_given_d ≤ 0) →
      refitLoopGo logF rows cols vals T tol τ fuel i
        (refitIterate rows cols vals τ i s0) prev =
      (refitIterate rows cols vals τ (i + fuel) s0, i + fuel, false) := by
  intro fuel
  induction fuel with
  | zero =>
    intro i prev _
    rfl
  | succ fuel ih =>
    intro i prev h
    have hstep : refitIterStep rows cols vals τ (refitIterate rows cols vals τ i s0) =
        refitIterate rows cols vals τ (i + 1) s0 :=
      (Function.iterate_succ_apply' _ _ _).symm
    have harith : (i + 1) + fuel = i + (fuel + 1) := by omega
    have h' : ∀ j, i + 1 ≤ j → j < (i + 1) + fuel → j % T = 0 →
        log_likelihood logF rows cols vals
          (refitIterate rows cols vals τ (j + 1) s0).topics
          (refitIterate rows cols vals τ (j + 1) s0).p_z_given_d ≤ 0 :=
      fun j hj1 hj2 => h j (by omega) (by omega)
    simp only [refitLoopGo]
    rw [hstep]
    by_cases hmod : i % T = 0
    · rw [if_pos hmod]
      have hcur : log_likelihood logF rows cols vals
          (refitIterate rows cols vals τ (i + 1) s0).topics
          (refitIterate rows cols vals τ (i + 1) s0).p_z_given_d ≤ 0 :=
        h i (le_refl i) (by omega) hmod
      rw [if_neg (not_lt.mpr hcur), ih (i + 1) prev h', harith]
    · rw [if_neg hmod, ih (i + 1) prev h', harith]

/-- Claim C4: the refit loop's stopping test is guarded by
`current_log_likelihood > 0`, so in every run whose log-likelihood is
non-positive at every checkpoint the loop never breaks early, performs all
`n_iter` iterations, and `plsa_refit` returns the `n_iter`-fold EM iterate
of its initial state. -/
theorem claimC4_refit_no_early_stop_when_ll_nonpositive
    (rng : Fin n → Fin k → ℚ) (topics : Fin k → Fin m → ℚ)
    (n_iter T : ℕ) (tol τ : ℚ)
    (h : ∀ j, j < n_iter → j % T = 0 →
      log_likelihood logF rows cols vals
        (refitIterate rows cols vals τ (j + 1) (refitInitState rng topics)).topics
        (refitIterate rows cols vals τ (j + 1)
          (refitInitState rng topics)).p_z_given_d ≤ 0) :
    (∀ prev, refitLoopGo logF rows cols vals T tol τ n_iter 0
        (refitInitState rng topics) prev =
      (refitIterate rows cols vals τ n_iter (refitInitState rng topics),
        n_iter, false)) ∧
    plsa_refit logF rows cols vals rng topics n_iter T tol τ =
      (refitIterate rows cols vals τ n_iter (refitInitState rng topics)).p_z_given_d := by
  have hmain : ∀ prev, refitLoopGo logF rows cols vals T tol τ n_iter 0
      (refitInitState rng topics) prev =
      (refitIterate rows cols vals τ n_iter (refitInitState rng topics),
        n_iter, false) := by
    intro prev
    have := refitLoopGo_nonpositive logF rows cols vals T tol τ
      (refitInitState rng topics) n_iter 0 prev
      (fun j _ hj2 hj3 => h j (by omega) hj3)
    simpa using this
  refine ⟨hmain, ?_⟩
  unfold plsa_refit
  rw [hmain]

/-- Witness for C4: on the `1×1` instance with the constant `-1` log
function every checkpoint log-likelihood equals `-1 ≤ 0`, so the refit loop
with `n_iter = 2`, `n_iter_per_test = 1` runs both iterations and never
breaks. -/
theorem claimC4_refit_no_early_stop_when_ll_nonpositive_witness :
    (∀ prev, @refitLoopGo 1 1 1 1 (fun _ => -1) (fun _ => 0) (fun _ => 0)
        (fun _ => 1) 1 ((1:ℚ)/2) 0 2 0
        (@refitInitState 1 1 1 1 (fun _ _ => 1) (fun _ _ => 1)) prev =
      (@refitIterate 1 1 1 1 (fun _ => 0) (fun _ => 0) (fun _ => 1) 0 2
        (@refitInitState 1 1 1 1 (fun _ _ => 1) (fun _ _ => 1)), 2, false)) ∧
    @plsa_refit 1 1 1 1 (fun _ => -1) (fun _ => 0) (fun _ => 0) (fun _ => 1)
        (fun _ _ => 1) (fun _ _ => 1) 2 1 ((1:ℚ)/2) 0 =
      (@refitIterate 1 1 1 1 (fun _ => 0) (fun _ => 0) (fun _ => 1) 0 2
        (@refitInitState 1 1 1 1 (fun _ _ => 1) (fun _ _ => 1))).p_z_given_d :=
  claimC4_refit_no_early_stop_when_ll_nonpositive (fun _ => -1) (fun _ => 0)
    (fun _ => 0) (fun _ => 1) (fun _ _ => 1) (fun _ _ => 1) 2 1 ((1:ℚ)/2) 0
    (fun j _ _ => by norm_num [log_likelihood, Fin.sum_univ_one])

/-- Claim C9: no part of the refit loop ever writes the externally supplied
topics array.  For every starting state, iteration index, fuel and
`previous_log_likelihood` — hence in particular for the state built by
`plsa_refit`'s initialization — the topics component of the state returned
by the loop (through every E step, constrained M step and log-likelihood
evaluation) is exactly the topics component of the state at entry. -/
theorem claimC9_refit_never_writes_topics (T : ℕ) (tol τ : ℚ) :
    ∀ (fuel i : ℕ) (s : RefitState n m k nnz) (prev : ℚ),
      (refitLoopGo logF rows cols vals T tol τ fuel i s prev).1.topics =
        s.topics := by
  intro fuel
  induction fuel with
  | zero =>
    intro i s prev
    rfl
  | succ fuel ih =>
    intro i s prev
    have htop : (refitIterStep rows cols vals τ s).topics = s.topics := rfl
    simp only [refitLoopGo]
    by_cases hmod : i % T = 0
    · rw [if_pos hmod]
      by_cases hpos : 0 < log_likelihood logF rows cols vals
          (refitIterStep rows cols vals τ s).topics
          (refitIterStep rows cols vals τ s).p_z_given_d
      · rw [if_pos hpos]
        by_cases hbr : ratioBelow
            |log_likelihood logF rows cols vals
              (refitIterStep rows cols vals τ s).topics
              (refitIterStep rows cols vals τ s).p_z_given_d - prev|
            (log_likelihood logF rows cols vals
              (refitIterStep rows cols vals τ s).topics
              (refitIterStep rows cols vals τ s).p_z_given_d) tol = true
        · rw [if_pos hbr]
          exact htop
        · rw [if_neg hbr]
          exact ih (i + 1) _ _
      · rw [if_neg hpos]
        exact ih (i + 1) _ _
    · rw [if_neg hmod]
      exact ih (i + 1) _ _

end Refit

section Init

variable {n m k : ℕ}

/-- `norm` from `plsa.py` (named `l2norm` here because Mathlib already
exports `norm`): the Euclidean norm `sqrt (∑ i, x i ^ 2)`. -/
noncomputable def l2norm {a : ℕ} (x : Fin a → ℝ) : ℝ :=
  Real.sqrt (∑ i, x i ^ 2)

/-- The component-`j` (`j ≥ 1`) update of the `nndsvd` branch of
`plsa_init`: split the `j`-th left/right singular vectors `x`, `y` into
positive parts (`np.maximum(·, 0)`) and negative parts
(`np.abs(np.minimum(·, 0))`), compare `m_p = ‖x_p‖ ‖y_p‖` with
`m_n = ‖x_n‖ ‖y_n‖`, keep the unit vectors of the winning part (the
negative part when `m_p > m_n` fails, ties included), and scale them by
`lbd = sqrt (S_j * sigma)` where `sigma` is the winning product. -/
noncomputable def nndsvdComponent (Sj : ℝ) (x : Fin n → ℝ) (y : Fin m → ℝ) :
    (Fin n → ℝ) × (Fin m → ℝ) :=
  let x_p := fun i => max (x i) 0
  let y_p := fun w => max (y w) 0
  let x_n := fun i => |min (x i) 0|
  let y_n := fun w => |min (y w) 0|
  let x_p_nrm := l2norm x_p
  let y_p_nrm := l2norm y_p
  let x_n_nrm := l2norm x_n
  let y_n_nrm := l2norm y_n
  let m_p := x_p_nrm * y_p_nrm
  let m_n := x_n_nrm * y_n_nrm
  if m_p > m_n then
    (fun i => Real.sqrt (Sj * m_p) * (x_p i / x_p_nrm),
      fun w => Real.sqrt (Sj * m_p) * (y_p w / y_p_nrm))
  else
    (fun i => Real.sqrt (Sj * m_n) * (x_n i / x_n_nrm),
      fun w => Real.sqrt (Sj * m_n) * (y_n w / y_n_nrm))

/-- Modelled from the spec (§4.1, `nndsvd`, component `j ≥ 1`) as the
comparison definition for claim C8: "select the part (positive or negative)
with larger product; scale the resulting unit vectors by
`√(S_j · max(m_p, m_n))`".  Ties, which the spec's wording leaves open, go
to the negative part as the code's strict comparison does. -/
noncomputable def nndsvdComponentSpec (Sj : ℝ) (x : Fin n → ℝ) (y : Fin m → ℝ) :
    (Fin n → ℝ) × (Fin m → ℝ) :=
  let x_p := fun i => max (x i) 0
  let y_p := fun w => max (y w) 0
  let x_n := fun i => |min (x i) 0|
  let y_n := fun w => |min (y w) 0|
  let x_p_nrm := l2norm x_p
  let y_p_nrm := l2norm y_p
  let x_n_nrm := l2norm x_n
  let y_n_nrm := l2norm y_n
  let m_p := x_p_nrm * y_p_nrm
  let m_n := x_n_nrm * y_n_nrm
  if m_p > m_n then
    (fun i => Real.sqrt (Sj * max m_p m_n) * (x_p i / x_p_nrm),
      fun w => Real.sqrt (Sj * max m_p m_n) * (y_p w / y_p_nrm))
  else
    (fun i => Real.sqrt (Sj * max m_p m_n) * (x_n i / x_n_nrm),
      fun w => Real.sqrt (Sj * max m_p m_n) * (y_n w / y_n_nrm))

/-- The doc-topic matrix built by the `nndsvd` branch of `plsa_init` before
the final normalization, from the SVD oracle `(U, S, V)`: column `0` is
`sqrt S₀ * |U[:, 0]|` (the leading singular triplet of a non-negative matrix
is non-negative), and column `j ≥ 1` is the left part of the component
update.  Each column is written exactly once by the source's loop, so the
matrix is a function of `j`. -/
noncomputable def nndsvdDocTopic (U : Fin n → Fin k → ℝ) (S : Fin k → ℝ)
    (V : Fin k → Fin m → ℝ) : Fin n → Fin k → ℝ :=
  fun i j =>
    if (j : ℕ) = 0 then Real.sqrt (S j) * |U i j|
    else (nndsvdComponent (S j) (fun i' => U i' j) (V j)).1 i

/-- The topic-word matrix built by the `nndsvd` branch of `plsa_init` before
the final normalization: row `0` is `sqrt S₀ * |V[0, :]|` and row `j ≥ 1` is
the right part of the component update. -/
noncomputable def nndsvdTopicWord (U : Fin n → Fin k → ℝ) (S : Fin k → ℝ)
    (V : Fin k → Fin m → ℝ) : Fin k → Fin m → ℝ :=
  fun j w =>
    if (j : ℕ) = 0 then Real.sqrt (S j) * |V j w|
    else (nndsvdComponent (S j) (fun i' => U i' j) (V j)).2 w

/-- The `init` argument of `plsa_init`: the three recognized strings, a
caller-supplied pair (the source accepts a tuple or a list, unpacked as
`p_z_given_d, p_w_given_z`), or any other value, carried with its textual
representation for the error message. -/
inductive InitArg (n m k : ℕ) where
  | random
  | nndsvd
  | nmf
  | pair (p_z_given_d : Fin n → Fin k → ℝ) (p_w_given_z : Fin k → Fin m → ℝ)
  | other (txt : String)

/-- `plsa_init` from `plsa.py`.  The external collaborators are supplied as
oracle arguments: `rngDT`/`rngTW` are the `np.random.random` draws of the
`random` branch, `(U, S, V)` is the `randomized_svd(X, k)` result, and
`(nmfW, nmfH)` are the factors of `non_negative_factorization`.  The
dispatch, the `nndsvd` construction and the final row-normalization of both
matrices follow the source; an unrecognized `init` raises
`ValueError("Unrecognized init {}".format(init))` before any doc-topic or
topic-word matrix is produced, modelled by `Except.error`.  The returned
pair is `(p_z_given_d, p_w_given_z)` as in the source. -/
noncomputable def plsa_init (rngDT : Fin n → Fin k → ℝ) (rngTW : Fin k → Fin m → ℝ)
    (U : Fin n → Fin k → ℝ) (S : Fin k → ℝ) (V : Fin k → Fin m → ℝ)
    (nmfW : Fin n → Fin k → ℝ) (nmfH : Fin k → Fin m → ℝ) :
    InitArg n m k → Except String ((Fin n → Fin k → ℝ) × (Fin k → Fin m → ℝ))
  | .random => .ok (rowNormalize rngDT, rowNormalize rngTW)
  | .nndsvd => .ok (rowNormalize (nndsvdDocTopic U S V),
      rowNormalize (nndsvdTopicWord U S V))
  | .nmf => .ok (rowNormalize nmfW, rowNormalize nmfH)
  | .pair W H => .ok (rowNormalize W, rowNormalize H)
  | .other txt => .error ("Unrecognized init " ++ txt)

/-- Claim C7: `plsa_init` fails with the invalid-argument error for every
argument that is not one of the strings `"random"`, `"nndsvd"`, `"nmf"` and
not a caller-supplied pair, producing no doc-topic or topic-word matrix
(the error value carries none); for every recognized mode it returns a
matrix pair without error. -/
theorem claimC7_init_dispatch (rngDT : Fin n → Fin k → ℝ)
    (rngTW : Fin k → Fin m → ℝ) (U : Fin n → Fin k → ℝ) (S : Fin k → ℝ)
    (V : Fin k → Fin m → ℝ) (nmfW : Fin n → Fin k → ℝ) (nmfH : Fin k → Fin m → ℝ) :
    (∀ txt, plsa_init rngDT rngTW U S V nmfW nmfH (.other txt) =
      .error ("Unrecognized init " ++ txt)) ∧
    (∃ p, plsa_init rngDT rngTW U S V nmfW nmfH .random = .ok p) ∧
    (∃ p, plsa_init rngDT rngTW U S V nmfW nmfH .nndsvd = .ok p) ∧
    (∃ p, plsa_init rngDT rngTW U S V nmfW nmfH .nmf = .ok p) ∧
    (∀ W H, ∃ p, plsa_init rngDT rngTW U S V nmfW nmfH (.pair W H) = .ok p) :=
  ⟨fun _ => rfl, ⟨_, rfl⟩, ⟨_, rfl⟩, ⟨_, rfl⟩, fun _ _ => ⟨_, rfl⟩⟩

/-- The code's winning scale factor `sigma` always equals
`max m_p m_n`, so the component update matches the spec's wording. -/
theorem nndsvdComponent_eq_spec (Sj : ℝ) (x : Fin n → ℝ) (y : Fin m → ℝ) :
    nndsvdComponent Sj x y = nndsvdComponentSpec Sj x y := by
  simp only [nndsvdComponent, nndsvdComponentSpec]
  split_ifs with h
  · rw [max_eq_left (le_of_lt h)]
  · rw [max_eq_right (not_lt.mp h)]

/-- Claim C8: in `nndsvd` initialization, for every component `j ≥ 1` the
values assigned to column `j` of the doc-topic matrix and to row `j` of the
topic-word matrix are exactly the spec's formula — the positive/negative
part with the larger norm product, its unit vectors scaled by
`sqrt (S_j * max (m_p, m_n))`. -/
theorem claimC8_nndsvd_component (U : Fin n → Fin k → ℝ) (S : Fin k → ℝ)
    (V : Fin k → Fin m → ℝ) (j : Fin k) (hj : (j : ℕ) ≠ 0) :
    (∀ i, nndsvdDocTopic U S V i j =
      (nndsvdComponentSpec (S j) (fun i' => U i' j) (V j)).1 i) ∧
    (∀ w, nndsvdTopicWord U S V j w =
      (nndsvdComponentSpec (S j) (fun i' => U i' j) (V j)).2 w) := by
  constructor
  · intro i
    unfold nndsvdDocTopic
    rw [if_neg hj, nndsvdComponent_eq_spec]
  · intro w
    unfold nndsvdTopicWord
    rw [if_neg hj, nndsvdComponent_eq_spec]

/-- Witness for C8: the all-ones rank-2 SVD oracle on a `1×1` matrix and
component `j = 1` satisfy the hypothesis `j ≠ 0`, and the assignment matches
the spec formula there. -/
theorem claimC8_nndsvd_component_witness :
    (∀ i : Fin 1, @nndsvdDocTopic 1 1 2 (fun _ _ => 1) (fun _ => 1)
        (fun _ _ => 1) i 1 =
      (nndsvdComponentSpec (1:ℝ) (fun _ : Fin 1 => (1:ℝ))
        (fun _ : Fin 1 => (1:ℝ))).1 i) ∧
    (∀ w : Fin 1, @nndsvdTopicWord 1 1 2 (fun _ _ => 1) (fun _ => 1)
        (fun _ _ => 1) 1 w =
      (nndsvdComponentSpec (1:ℝ) (fun _ : Fin 1 => (1:ℝ))
        (fun _ : Fin 1 => (1:ℝ))).2 w) :=
  claimC8_nndsvd_component (fun _ _ => 1) (fun _ => 1) (fun _ _ => 1) 1
    (by decide)

end Init

/-- Python values appearing in the positional argument list that
`PLSA.transform` builds for its `plsa_refit` call. -/
inductive PyVal where
  | natArr : List ℕ → PyVal
  | ratArr : List ℚ → PyVal
  | int : ℕ → PyVal
  | mat : List (List ℚ) → PyVal
deriving DecidableEq

/-- The coordinate sparse matrix as `PLSA.transform` sees it after the
`coo_matrix` / `tocoo()` coercion: `scipy`'s COO format stores the nonzero
entries in the attributes `row`, `col` and `data` and the dimensions in
`shape`. -/
structure CooMatrix where
  row : List ℕ
  col : List ℕ
  data : List ℚ
  shape0 : ℕ
  shape1 : ℕ

/-- Attribute lookup on a COO matrix, restricted to the entry-array
attributes `PLSA.transform` could read: `row`, `col` and `data` exist;
anything else — in particular the `vals` the source asks for — does not, and
`none` models the resulting `AttributeError`. -/
def cooGetattr (X : CooMatrix) (name : String) : Option PyVal :=
  if name = "row" then some (.natArr X.row)
  else if name = "col" then some (.natArr X.col)
  else if name = "data" then some (.ratArr X.data)
  else none

/-- The positional argument list of the `plsa_refit` call inside
`PLSA.transform`, in source order: `X.row, X.col, X.vals, n, m,
self.components_` (with `n, m = X.shape`).  Each element is the value of the
argument expression at that position; `none` marks an attribute lookup that
fails. -/
def transformCallArgs (components : List (List ℚ)) (X : CooMatrix) :
    List (Option PyVal) :=
  [some (.natArr X.row), some (.natArr X.col), cooGetattr X "vals",
    some (.int X.shape0), some (.int X.shape1), some (.mat components)]

/-- Position of the parameter `X_vals` in `plsa_refit`'s positional
parameter list `(X_rows, X_cols, X_vals, topics, n_documents, n_iter, ...)`. -/
def refitValsPos : ℕ := 2

/-- Position of the parameter `topics` in `plsa_refit`'s parameter list. -/
def refitTopicsPos : ℕ := 3

/-- Position of the parameter `n_documents` in `plsa_refit`'s parameter
list. -/
def refitNDocsPos : ℕ := 4

/-- `PLSA.transform` from `plsa.py`.  Python evaluates the argument
expressions left to right before entering `plsa_refit`; the third, `X.vals`,
raises `AttributeError` (a COO matrix stores its values in `data`, not
`vals`), so the call aborts during argument evaluation and no doc-topic
matrix is ever produced.  Were the lookup ever to succeed, the call would
still fail before running: `self.components_` would land in the `n_iter`
position while `n_iter=50` is also passed by keyword, a `TypeError`. -/
def PLSA_transform (components : List (List ℚ)) (X : CooMatrix) :
    Except String (List (List ℚ)) :=
  match cooGetattr X "vals" with
  | none => .error "AttributeError: coo_matrix object has no attribute vals"
  | some _ => .error "TypeError: plsa_refit got multiple values for n_iter"

/-- Claim C10 (corrected): `PLSA.transform` never returns a doc-topic
matrix — the lookup of the nonexistent attribute `vals` fails during
argument evaluation, before `plsa_refit` is entered — and the argument list
it builds puts the dimension `n` in the position `plsa_refit` reserves for
the fixed topics and `m` in the position reserved for the document count,
while the entry-values position holds the failed `vals` lookup.  The
original claim located `n` and `m` in the entry-values and topics
positions. -/
theorem claimC10_amended_transform_always_fails
    (components : List (List ℚ)) (X : CooMatrix) :
    PLSA_transform components X =
      .error "AttributeError: coo_matrix object has no attribute vals" ∧
    cooGetattr X "vals" = none ∧
    (transformCallArgs components X).get? refitValsPos =
      some (cooGetattr X "vals") ∧
    (transformCallArgs components X).get? refitTopicsPos =
      some (some (.int X.shape0)) ∧
    (transformCallArgs components X).get? refitNDocsPos =
      some (some (.int X.shape1)) := by
  have hv : cooGetattr X "vals" = none := rfl
  refine ⟨?_, hv, rfl, rfl, rfl⟩
  unfold PLSA_transform
  rw [hv]

/-- Counterexample for C10 as stated: on the concrete `2×3` input the
argument in `plsa_refit`'s entry-values position is the failed `vals`
lookup, not the dimension `n = 2`, and the topics position holds `n = 2`,
not `m = 3` — `n` and `m` sit one slot later than the claim says. -/
theorem claimC10_counterexample :
    (transformCallArgs [[1]] ⟨[0], [0], [1], 2, 3⟩).get? refitValsPos ≠
      some (some (.int 2)) ∧
    (transformCallArgs [[1]] ⟨[0], [0], [1], 2, 3⟩).get? refitTopicsPos ≠
      some (some (.int 3)) ∧
    (transformCallArgs [[1]] ⟨[0], [0], [1], 2, 3⟩).get? refitTopicsPos =
      some (some (.int 2)) ∧
    (transformCallArgs [[1]] ⟨[0], [0], [1], 2, 3⟩).get? refitNDocsPos =
      some (some (.int 3)) := by
  refine ⟨?_, ?_, rfl, rfl⟩ <;> decide

end Enstop
